import Mathlib

/-!
Shallow embedding of `src/mtu.py` (fbmtu): a path-MTU discovery tool that
binary-searches the largest ICMP payload size that survives a don't-fragment
probe, then adds a tunnel overhead to produce a recommended MTU.

Python integers are unbounded and signed, so they are modelled by `Int`.
The network probe `ping(host, size)` is an external effect returning a
boolean; it is modelled by an arbitrary function `probe : Int → Bool`
(a fixed host is baked into the probe function).  Python's floor division
`//` is `Int.fdiv` in Lean.
-/

namespace Mtu

/-- The `while low <= high` loop of `find_best_mtu` (src/mtu.py lines
127-137), with the loop state `(low, high, best_mtu)` made explicit.
Each iteration probes `mid = (low + high) // 2`; on success it records
`best_mtu = mid` and moves `low` to `mid + 1`, on failure it moves `high`
to `mid - 1`; when `low > high` it exits with the current `best_mtu`. -/
def find_best_mtu_loop (probe : Int → Bool) (low high best_mtu : Int) : Int :=
  if low ≤ high then
    if probe (Int.fdiv (low + high) 2) then
      find_best_mtu_loop probe (Int.fdiv (low + high) 2 + 1) high (Int.fdiv (low + high) 2)
    else
      find_best_mtu_loop probe low (Int.fdiv (low + high) 2 - 1) best_mtu
  else best_mtu
termination_by (high + 1 - low).toNat
decreasing_by
  · have hm : Int.fdiv (low + high) 2 = (low + high) / 2 := Int.fdiv_eq_ediv _ (by norm_num)
    rw [hm] at *
    omega
  · have hm : Int.fdiv (low + high) 2 = (low + high) / 2 := Int.fdiv_eq_ediv _ (by norm_num)
    rw [hm] at *
    omega

/-- `find_best_mtu` (src/mtu.py lines 114-139): computes
`adjusted_max = max_mtu - wireguard_overhead`, runs the binary-search loop
with `low = min_mtu`, `high = adjusted_max`, `best_mtu = min_mtu`, and
returns `best_mtu + wireguard_overhead`. -/
def find_best_mtu (probe : Int → Bool) (min_mtu max_mtu wireguard_overhead : Int) : Int :=
  find_best_mtu_loop probe min_mtu (max_mtu - wireguard_overhead) min_mtu + wireguard_overhead

/-- Instrumented version of the loop: also returns the chronological list of
probe calls made, each as a `(size, result)` pair.  Its first component is
proved equal to `find_best_mtu_loop` below (`find_best_mtu_trace_fst`). -/
def find_best_mtu_trace (probe : Int → Bool) (low high best_mtu : Int) :
    Int × List (Int × Bool) :=
  if low ≤ high then
    if probe (Int.fdiv (low + high) 2) then
      ((find_best_mtu_trace probe (Int.fdiv (low + high) 2 + 1) high
          (Int.fdiv (low + high) 2)).1,
        (Int.fdiv (low + high) 2, true) ::
          (find_best_mtu_trace probe (Int.fdiv (low + high) 2 + 1) high
            (Int.fdiv (low + high) 2)).2)
    else
      ((find_best_mtu_trace probe low (Int.fdiv (low + high) 2 - 1) best_mtu).1,
        (Int.fdiv (low + high) 2, false) ::
          (find_best_mtu_trace probe low (Int.fdiv (low + high) 2 - 1) best_mtu).2)
  else (best_mtu, [])
termination_by (high + 1 - low).toNat
decreasing_by
  all_goals
    have hm : Int.fdiv (low + high) 2 = (low + high) / 2 := Int.fdiv_eq_ediv _ (by norm_num)
    rw [hm] at *
    omega

/-- The probe calls made by `find_best_mtu` with the given arguments, in
chronological order, each as a `(size, result)` pair. -/
def find_best_mtu_probes (probe : Int → Bool) (min_mtu max_mtu wireguard_overhead : Int) :
    List (Int × Bool) :=
  (find_best_mtu_trace probe min_mtu (max_mtu - wireguard_overhead) min_mtu).2

/-- The successive values of the `best_mtu` variable at each evaluation of
the `while low <= high` condition, including the final one (so the list of
values taken by `best_mtu` over the run, with the initial value first and
the returned base value last). -/
def best_mtu_values (probe : Int → Bool) (low high best_mtu : Int) : List Int :=
  if low ≤ high then
    if probe (Int.fdiv (low + high) 2) then
      best_mtu :: best_mtu_values probe (Int.fdiv (low + high) 2 + 1) high
        (Int.fdiv (low + high) 2)
    else
      best_mtu :: best_mtu_values probe low (Int.fdiv (low + high) 2 - 1) best_mtu
  else [best_mtu]
termination_by (high + 1 - low).toNat
decreasing_by
  · have hm : Int.fdiv (low + high) 2 = (low + high) / 2 := Int.fdiv_eq_ediv _ (by norm_num)
    rw [hm] at *
    omega
  · have hm : Int.fdiv (low + high) 2 = (low + high) / 2 := Int.fdiv_eq_ediv _ (by norm_num)
    rw [hm] at *
    omega

/-- `get_current_mtu` (src/mtu.py lines 54-68).  The effects and the Python
builtins are explicit arguments: `system_name` is the value of
`platform.system()`; `mtu_file_content` is the content of
`/sys/class/net/<interface>/mtu` (`none` when opening or reading the file
raises); and `parse` abstracts the builtin composite `int(s.strip())`
(`none` when `int()` raises `ValueError`) — Python's full grammar for `int()`
(Unicode decimal digits, PEP 515 underscore separators) and `str.strip()`
(all Unicode whitespace) is not re-implemented but kept abstract, exactly as
the external `ping` utility is abstracted by `probe` above, so every theorem
about `get_current_mtu` holds for the real builtins.  On Windows the function
returns `-1`; otherwise it evaluates `int(f.read().strip())`, returning `-1`
if the read or the parse fails (the `except` branch). -/
def get_current_mtu (parse : String → Option Int) (system_name : String)
    (mtu_file_content : Option String) : Int :=
  if system_name = "Windows" then -1
  else
    match mtu_file_content with
    | none => -1
    | some s =>
      match parse s with
      | some n => n
      | none => -1

/- ### Helper lemmas -/

theorem fdiv_two (a : Int) : Int.fdiv a 2 = a / 2 :=
  Int.fdiv_eq_ediv _ (by norm_num)

theorem find_best_mtu_loop_of_not_le (probe : Int → Bool) (low high best_mtu : Int)
    (h : ¬ low ≤ high) : find_best_mtu_loop probe low high best_mtu = best_mtu := by
  rw [find_best_mtu_loop, if_neg h]

theorem find_best_mtu_loop_threshold_aux (T : Int) :
    ∀ (k : Nat) (low high best : Int), (high + 1 - low).toNat ≤ k →
      find_best_mtu_loop (fun s => decide (s ≤ T)) low high best =
        if low ≤ T ∧ low ≤ high then min T high else best := by
  intro k
  induction k with
  | zero =>
    intro low high best hk
    rw [find_best_mtu_loop_of_not_le _ _ _ _ (by omega),
      if_neg (by omega : ¬ (low ≤ T ∧ low ≤ high))]
  | succ k ih =>
    intro low high best hk
    by_cases hlh : low ≤ high
    · rw [find_best_mtu_loop, if_pos hlh, fdiv_two]
      simp only [decide_eq_true_eq]
      by_cases hp : (low + high) / 2 ≤ T
      · rw [if_pos hp, ih ((low + high) / 2 + 1) high ((low + high) / 2) (by omega)]
        split_ifs <;> omega
      · rw [if_neg hp, ih low ((low + high) / 2 - 1) best (by omega)]
        split_ifs <;> omega
    · rw [find_best_mtu_loop_of_not_le _ _ _ _ hlh,
        if_neg (by omega : ¬ (low ≤ T ∧ low ≤ high))]

theorem find_best_mtu_loop_ge_aux (probe : Int → Bool) :
    ∀ (k : Nat) (low high best : Int), (high + 1 - low).toNat ≤ k → best ≤ low →
      best ≤ find_best_mtu_loop probe low high best := by
  intro k
  induction k with
  | zero =>
    intro low high best hk hb
    rw [find_best_mtu_loop_of_not_le _ _ _ _ (by omega)]
  | succ k ih =>
    intro low high best hk hb
    by_cases hlh : low ≤ high
    · rw [find_best_mtu_loop, if_pos hlh, fdiv_two]
      by_cases hp : probe ((low + high) / 2) = true
      · rw [if_pos hp]
        have h2 := ih ((low + high) / 2 + 1) high ((low + high) / 2) (by omega) (by omega)
        omega
      · rw [if_neg hp]
        exact ih low ((low + high) / 2 - 1) best (by omega) hb
    · rw [find_best_mtu_loop_of_not_le _ _ _ _ hlh]

theorem find_best_mtu_loop_le_aux (probe : Int → Bool) :
    ∀ (k : Nat) (low high best : Int), (high + 1 - low).toNat ≤ k →
      find_best_mtu_loop probe low high best ≤ max best high := by
  intro k
  induction k with
  | zero =>
    intro low high best hk
    rw [find_best_mtu_loop_of_not_le _ _ _ _ (by omega)]
    omega
  | succ k ih =>
    intro low high best hk
    by_cases hlh : low ≤ high
    · rw [find_best_mtu_loop, if_pos hlh, fdiv_two]
      by_cases hp : probe ((low + high) / 2) = true
      · rw [if_pos hp]
        have h2 := ih ((low + high) / 2 + 1) high ((low + high) / 2) (by omega)
        omega
      · rw [if_neg hp]
        have h2 := ih low ((low + high) / 2 - 1) best (by omega)
        omega
    · rw [find_best_mtu_loop_of_not_le _ _ _ _ hlh]
      omega

theorem find_best_mtu_loop_all_true_aux (probe : Int → Bool) :
    ∀ (k : Nat) (low high best : Int), (high + 1 - low).toNat ≤ k →
      (∀ s : Int, low ≤ s → s ≤ high → probe s = true) →
      find_best_mtu_loop probe low high best = if low ≤ high then high else best := by
  intro k
  induction k with
  | zero =>
    intro low high best hk hall
    rw [find_best_mtu_loop_of_not_le _ _ _ _ (by omega), if_neg (by omega : ¬ low ≤ high)]
  | succ k ih =>
    intro low high best hk hall
    by_cases hlh : low ≤ high
    · rw [find_best_mtu_loop, if_pos hlh, fdiv_two,
        if_pos (hall _ (by omega) (by omega)),
        ih ((low + high) / 2 + 1) high ((low + high) / 2) (by omega)
          (fun s hs1 hs2 => hall s (by omega) hs2)]
      rw [if_pos hlh]
      split_ifs <;> omega
    · rw [find_best_mtu_loop_of_not_le _ _ _ _ hlh, if_neg hlh]

theorem find_best_mtu_loop_all_false_aux (probe : Int → Bool) :
    ∀ (k : Nat) (low high best : Int), (high + 1 - low).toNat ≤ k →
      (∀ s : Int, low ≤ s → s ≤ high → probe s = false) →
      find_best_mtu_loop probe low high best = best := by
  intro k
  induction k with
  | zero =>
    intro low high best hk hall
    exact find_best_mtu_loop_of_not_le _ _ _ _ (by omega)
  | succ k ih =>
    intro low high best hk hall
    by_cases hlh : low ≤ high
    · have hf : probe ((low + high) / 2) = false := hall _ (by omega) (by omega)
      rw [find_best_mtu_loop, if_pos hlh, fdiv_two, if_neg (by simp [hf]),
        ih low ((low + high) / 2 - 1) best (by omega) (fun s hs1 hs2 => hall s hs1 (by omega))]
    · exact find_best_mtu_loop_of_not_le _ _ _ _ hlh

theorem find_best_mtu_trace_fst_aux (probe : Int → Bool) :
    ∀ (k : Nat) (low high best : Int), (high + 1 - low).toNat ≤ k →
      (find_best_mtu_trace probe low high best).1 =
        find_best_mtu_loop probe low high best := by
  intro k
  induction k with
  | zero =>
    intro low high best hk
    rw [find_best_mtu_trace, find_best_mtu_loop, if_neg (by omega : ¬ low ≤ high),
      if_neg (by omega : ¬ low ≤ high)]
  | succ k ih =>
    intro low high best hk
    by_cases hlh : low ≤ high
    · rw [find_best_mtu_trace, find_best_mtu_loop, if_pos hlh, if_pos hlh, fdiv_two]
      by_cases hp : probe ((low + high) / 2) = true
      · rw [if_pos hp, if_pos hp]
        exact ih ((low + high) / 2 + 1) high ((low + high) / 2) (by omega)
      · rw [if_neg hp, if_neg hp]
        exact ih low ((low + high) / 2 - 1) best (by omega)
    · rw [find_best_mtu_trace, find_best_mtu_loop, if_neg hlh, if_neg hlh]

theorem clog_two_double (n : Nat) (hn : 1 ≤ n) : Nat.clog 2 (2 * n) = Nat.clog 2 n + 1 := by
  have h5 := Nat.clog_of_two_le (show (1 : Nat) < 2 by norm_num) (show 2 ≤ 2 * n by omega)
  have h6 : (2 * n + 2 - 1) / 2 = n := by omega
  rw [h6] at h5
  exact h5

theorem clog_two_halving (n : Nat) (hn : 1 ≤ n) :
    Nat.clog 2 (n + 1) = Nat.clog 2 ((n + 2) / 2) + 1 := by
  have h5 := Nat.clog_of_two_le (show (1 : Nat) < 2 by norm_num) (show 2 ≤ n + 1 by omega)
  have h6 : (n + 1 + 2 - 1) / 2 = (n + 2) / 2 := by omega
  rw [h6] at h5
  exact h5

theorem find_best_mtu_trace_len_aux (probe : Int → Bool) :
    ∀ (k : Nat) (low high best : Int), (high + 1 - low).toNat ≤ k →
      (find_best_mtu_trace probe low high best).2.length ≤
        Nat.clog 2 ((high + 1 - low).toNat + 1) := by
  intro k
  induction k with
  | zero =>
    intro low high best hk
    rw [find_best_mtu_trace, if_neg (by omega : ¬ low ≤ high)]
    simp
  | succ k ih =>
    intro low high best hk
    by_cases hlh : low ≤ high
    · have hn1 : 1 ≤ (high + 1 - low).toNat := by omega
      rw [find_best_mtu_trace, if_pos hlh, fdiv_two]
      by_cases hp : probe ((low + high) / 2) = true
      · rw [if_pos hp]
        have h1 := ih ((low + high) / 2 + 1) high ((low + high) / 2) (by omega)
        have h2 := Nat.clog_mono_right 2
          (show (high + 1 - ((low + high) / 2 + 1)).toNat + 1 ≤
            ((high + 1 - low).toNat + 2) / 2 by omega)
        have h3 := clog_two_halving ((high + 1 - low).toNat) hn1
        calc ((find_best_mtu_trace probe ((low + high) / 2 + 1) high
                ((low + high) / 2)).1,
              ((low + high) / 2, true) ::
                (find_best_mtu_trace probe ((low + high) / 2 + 1) high
                  ((low + high) / 2)).2).2.length
            = (find_best_mtu_trace probe ((low + high) / 2 + 1) high
                ((low + high) / 2)).2.length + 1 := by
              rw [List.length_cons]
          _ ≤ Nat.clog 2 ((high + 1 - low).toNat + 1) := by omega
      · rw [if_neg hp]
        have h1 := ih low ((low + high) / 2 - 1) best (by omega)
        have h2 := Nat.clog_mono_right 2
          (show ((low + high) / 2 - 1 + 1 - low).toNat + 1 ≤
            ((high + 1 - low).toNat + 2) / 2 by omega)
        have h3 := clog_two_halving ((high + 1 - low).toNat) hn1
        calc ((find_best_mtu_trace probe low ((low + high) / 2 - 1) best).1,
              ((low + high) / 2, false) ::
                (find_best_mtu_trace probe low ((low + high) / 2 - 1) best).2).2.length
            = (find_best_mtu_trace probe low ((low + high) / 2 - 1) best).2.length + 1 := by
              rw [List.length_cons]
          _ ≤ Nat.clog 2 ((high + 1 - low).toNat + 1) := by omega
    · rw [find_best_mtu_trace, if_neg hlh]
      simp

theorem find_best_mtu_trace_mem_aux (probe : Int → Bool) :
    ∀ (k : Nat) (low high best : Int), (high + 1 - low).toNat ≤ k →
      (find_best_mtu_trace probe low high best).1 = best ∨
        ((find_best_mtu_trace probe low high best).1, true) ∈
          (find_best_mtu_trace probe low high best).2 := by
  intro k
  induction k with
  | zero =>
    intro low high best hk
    left
    rw [find_best_mtu_trace, if_neg (by omega : ¬ low ≤ high)]
  | succ k ih =>
    intro low high best hk
    by_cases hlh : low ≤ high
    · rw [find_best_mtu_trace, if_pos hlh, fdiv_two]
      by_cases hp : probe ((low + high) / 2) = true
      · rw [if_pos hp]
        right
        rcases ih ((low + high) / 2 + 1) high ((low + high) / 2) (by omega) with h1 | h1
        · rw [show ((find_best_mtu_trace probe ((low + high) / 2 + 1) high
              ((low + high) / 2)).1,
              ((low + high) / 2, true) ::
                (find_best_mtu_trace probe ((low + high) / 2 + 1) high
                  ((low + high) / 2)).2).1 = (find_best_mtu_trace probe
                    ((low + high) / 2 + 1) high ((low + high) / 2)).1 from rfl, h1]
          exact List.mem_cons_self _ _
        · exact List.mem_cons_of_mem _ h1
      · rw [if_neg hp]
        rcases ih low ((low + high) / 2 - 1) best (by omega) with h1 | h1
        · exact Or.inl h1
        · exact Or.inr (List.mem_cons_of_mem _ h1)
    · left
      rw [find_best_mtu_trace, if_neg hlh]

theorem best_mtu_values_head (probe : Int → Bool) (low high best : Int) :
    (best_mtu_values probe low high best).head? = some best := by
  rw [best_mtu_values]
  split_ifs <;> rfl

theorem best_mtu_values_ne_nil (probe : Int → Bool) (low high best : Int) :
    best_mtu_values probe low high best ≠ [] := by
  rw [best_mtu_values]
  split_ifs <;> simp

theorem best_mtu_values_chain_aux (probe : Int → Bool) :
    ∀ (k : Nat) (low high best : Int), (high + 1 - low).toNat ≤ k → best ≤ low →
      List.Chain' (· ≤ ·) (best_mtu_values probe low high best) := by
  intro k
  induction k with
  | zero =>
    intro low high best hk hb
    rw [best_mtu_values, if_neg (by omega : ¬ low ≤ high)]
    simp
  | succ k ih =>
    intro low high best hk hb
    by_cases hlh : low ≤ high
    · rw [best_mtu_values, if_pos hlh, fdiv_two]
      by_cases hp : probe ((low + high) / 2) = true
      · rw [if_pos hp]
        refine List.chain'_cons'.mpr ⟨?_, ih ((low + high) / 2 + 1) high
          ((low + high) / 2) (by omega) (by omega)⟩
        intro y hy
        rw [best_mtu_values_head] at hy
        simp only [Option.mem_def, Option.some.injEq] at hy
        omega
      · rw [if_neg hp]
        refine List.chain'_cons'.mpr ⟨?_, ih low ((low + high) / 2 - 1) best (by omega) hb⟩
        intro y hy
        rw [best_mtu_values_head] at hy
        simp only [Option.mem_def, Option.some.injEq] at hy
        omega
    · rw [best_mtu_values, if_neg hlh]
      simp

theorem best_mtu_values_getLast_aux (probe : Int → Bool) :
    ∀ (k : Nat) (low high best : Int), (high + 1 - low).toNat ≤ k →
      (best_mtu_values probe low high best).getLast? =
        some (find_best_mtu_loop probe low high best) := by
  intro k
  induction k with
  | zero =>
    intro low high best hk
    rw [best_mtu_values, if_neg (by omega : ¬ low ≤ high),
      find_best_mtu_loop_of_not_le _ _ _ _ (by omega)]
    rfl
  | succ k ih =>
    intro low high best hk
    by_cases hlh : low ≤ high
    · rw [best_mtu_values, if_pos hlh, find_best_mtu_loop, if_pos hlh, fdiv_two]
      by_cases hp : probe ((low + high) / 2) = true
      · rw [if_pos hp, if_pos hp]
        obtain ⟨c, t, hct⟩ := List.exists_cons_of_ne_nil
          (best_mtu_values_ne_nil probe ((low + high) / 2 + 1) high ((low + high) / 2))
        rw [hct, List.getLast?_cons_cons, ← hct]
        exact ih ((low + high) / 2 + 1) high ((low + high) / 2) (by omega)
      · rw [if_neg hp, if_neg hp]
        obtain ⟨c, t, hct⟩ := List.exists_cons_of_ne_nil
          (best_mtu_values_ne_nil probe low ((low + high) / 2 - 1) best)
        rw [hct, List.getLast?_cons_cons, ← hct]
        exact ih low ((low + high) / 2 - 1) best (by omega)
    · rw [best_mtu_values, if_neg hlh, find_best_mtu_loop_of_not_le _ _ _ _ hlh]
      rfl

theorem find_best_mtu_degenerate (probe : Int → Bool)
    (min_mtu max_mtu wireguard_overhead : Int)
    (h : max_mtu - wireguard_overhead < min_mtu) :
    find_best_mtu probe min_mtu max_mtu wireguard_overhead =
        min_mtu + wireguard_overhead ∧
      find_best_mtu_probes probe min_mtu max_mtu wireguard_overhead = [] := by
  constructor
  · rw [find_best_mtu, find_best_mtu_loop_of_not_le _ _ _ _ (by omega)]
  · rw [find_best_mtu_probes, find_best_mtu_trace,
      if_neg (by omega : ¬ min_mtu ≤ max_mtu - wireguard_overhead)]

/- ### Claim theorems -/

/-- C1: for every threshold `T` with `min_mtu ≤ T ≤ max_mtu - wireguard_overhead`,
if the probe succeeds exactly for sizes `≤ T` and fails for sizes `> T`, then
`find_best_mtu` returns `T + wireguard_overhead` exactly. -/
theorem find_best_mtu_threshold (probe : Int → Bool)
    (T min_mtu max_mtu wireguard_overhead : Int)
    (hprobe : ∀ s : Int, probe s = true ↔ s ≤ T)
    (hminT : min_mtu ≤ T) (hTmax : T ≤ max_mtu - wireguard_overhead) :
    find_best_mtu probe min_mtu max_mtu wireguard_overhead = T + wireguard_overhead := by
  have hpe : probe = fun s => decide (s ≤ T) := by
    funext s
    by_cases hT : s ≤ T
    · rw [(hprobe s).mpr hT]
      simp [hT]
    · have hft : probe s = false := by
        cases hps : probe s
        · rfl
        · exact absurd ((hprobe s).mp hps) hT
      rw [hft]
      simp [hT]
  rw [find_best_mtu, hpe,
    find_best_mtu_loop_threshold_aux T ((max_mtu - wireguard_overhead + 1 - min_mtu).toNat)
      min_mtu (max_mtu - wireguard_overhead) min_mtu le_rfl,
    if_pos ⟨hminT, by omega⟩]
  omega

/-- Witness for C1: the spec's end-to-end scenario, `min_mtu = 576`,
`max_mtu = 1500`, `wireguard_overhead = 80`, probe succeeding iff the payload
is `≤ 1380`: the recommendation is `1380 + 80 = 1460`. -/
theorem find_best_mtu_threshold_witness :
    (576 : Int) ≤ 1380 ∧ (1380 : Int) ≤ 1500 - 80 ∧
      find_best_mtu (fun s => decide (s ≤ 1380)) 576 1500 80 = 1380 + 80 ∧
      (1380 : Int) + 80 = 1460 :=
  ⟨by norm_num, by norm_num,
    find_best_mtu_threshold (fun s => decide (s ≤ 1380)) 1380 576 1500 80
      (fun s => by simp) (by norm_num) (by norm_num), by norm_num⟩

/-- C2: for every probe and every `min_mtu ≤ max_mtu - wireguard_overhead`,
`find_best_mtu` returns a value in the closed interval
`[min_mtu + wireguard_overhead, max_mtu]`. -/
theorem find_best_mtu_in_range (probe : Int → Bool)
    (min_mtu max_mtu wireguard_overhead : Int)
    (h : min_mtu ≤ max_mtu - wireguard_overhead) :
    min_mtu + wireguard_overhead ≤ find_best_mtu probe min_mtu max_mtu wireguard_overhead ∧
      find_best_mtu probe min_mtu max_mtu wireguard_overhead ≤ max_mtu := by
  have h1 := find_best_mtu_loop_ge_aux probe
    ((max_mtu - wireguard_overhead + 1 - min_mtu).toNat) min_mtu
    (max_mtu - wireguard_overhead) min_mtu le_rfl le_rfl
  have h2 := find_best_mtu_loop_le_aux probe
    ((max_mtu - wireguard_overhead + 1 - min_mtu).toNat) min_mtu
    (max_mtu - wireguard_overhead) min_mtu le_rfl
  rw [find_best_mtu]
  omega

/-- Witness for C2 at `min_mtu = 576`, `max_mtu = 1500`,
`wireguard_overhead = 80` and a probe succeeding iff the payload is even. -/
theorem find_best_mtu_in_range_witness :
    (576 : Int) ≤ 1500 - 80 ∧
      (576 + 80 ≤ find_best_mtu (fun s => decide (s % 2 = 0)) 576 1500 80 ∧
        find_best_mtu (fun s => decide (s % 2 = 0)) 576 1500 80 ≤ 1500) :=
  ⟨by norm_num, find_best_mtu_in_range (fun s => decide (s % 2 = 0)) 576 1500 80 (by norm_num)⟩

/-- C3: if the probe succeeds for every size in the search range and
`min_mtu ≤ max_mtu - wireguard_overhead`, `find_best_mtu` returns exactly
`max_mtu`. -/
theorem find_best_mtu_all_success (probe : Int → Bool)
    (min_mtu max_mtu wireguard_overhead : Int)
    (h : min_mtu ≤ max_mtu - wireguard_overhead)
    (hall : ∀ s : Int, min_mtu ≤ s → s ≤ max_mtu - wireguard_overhead → probe s = true) :
    find_best_mtu probe min_mtu max_mtu wireguard_overhead = max_mtu := by
  rw [find_best_mtu,
    find_best_mtu_loop_all_true_aux probe
      ((max_mtu - wireguard_overhead + 1 - min_mtu).toNat) min_mtu
      (max_mtu - wireguard_overhead) min_mtu le_rfl hall,
    if_pos h]
  ring

/-- Witness for C3: with an always-successful probe on the 576-1500/80 range
the recommendation is exactly `max_mtu = 1500`. -/
theorem find_best_mtu_all_success_witness :
    (576 : Int) ≤ 1500 - 80 ∧ find_best_mtu (fun _ => true) 576 1500 80 = 1500 :=
  ⟨by norm_num,
    find_best_mtu_all_success (fun _ => true) 576 1500 80 (by norm_num)
      (fun s hs1 hs2 => rfl)⟩

/-- C4: if the probe fails for every size in the search range and
`min_mtu ≤ max_mtu - wireguard_overhead`, `find_best_mtu` returns exactly
`min_mtu + wireguard_overhead` (the initialized floor, unchanged). -/
theorem find_best_mtu_all_failure (probe : Int → Bool)
    (min_mtu max_mtu wireguard_overhead : Int)
    (h : min_mtu ≤ max_mtu - wireguard_overhead)
    (hall : ∀ s : Int, min_mtu ≤ s → s ≤ max_mtu - wireguard_overhead → probe s = false) :
    find_best_mtu probe min_mtu max_mtu wireguard_overhead =
      min_mtu + wireguard_overhead := by
  rw [find_best_mtu,
    find_best_mtu_loop_all_false_aux probe
      ((max_mtu - wireguard_overhead + 1 - min_mtu).toNat) min_mtu
      (max_mtu - wireguard_overhead) min_mtu le_rfl hall]

/-- Witness for C4: with an always-failing probe on the 576-1500/80 range the
recommendation is `576 + 80`. -/
theorem find_best_mtu_all_failure_witness :
    (576 : Int) ≤ 1500 - 80 ∧ find_best_mtu (fun _ => false) 576 1500 80 = 576 + 80 :=
  ⟨by norm_num,
    find_best_mtu_all_failure (fun _ => false) 576 1500 80 (by norm_num)
      (fun s hs1 hs2 => rfl)⟩

/-- C5: for every probe and every non-degenerate range, the search terminates
(`find_best_mtu_loop` and `find_best_mtu_trace` are total functions, proved
terminating by the strictly decreasing measure `(high + 1 - low).toNat`), and
the number of probe calls is at most
`ceil(log2(adjusted_max - min_mtu + 1)) + 1` where
`adjusted_max = max_mtu - wireguard_overhead`. -/
theorem find_best_mtu_probe_count (probe : Int → Bool)
    (min_mtu max_mtu wireguard_overhead : Int)
    (h : min_mtu ≤ max_mtu - wireguard_overhead) :
    (find_best_mtu_probes probe min_mtu max_mtu wireguard_overhead).length ≤
      Nat.clog 2 ((max_mtu - wireguard_overhead - min_mtu + 1).toNat) + 1 := by
  have h1 := find_best_mtu_trace_len_aux probe
    ((max_mtu - wireguard_overhead + 1 - min_mtu).toNat) min_mtu
    (max_mtu - wireguard_overhead) min_mtu le_rfl
  have hn1 : 1 ≤ (max_mtu - wireguard_overhead - min_mtu + 1).toNat := by omega
  have h2 := Nat.clog_mono_right 2
    (show (max_mtu - wireguard_overhead + 1 - min_mtu).toNat + 1 ≤
      2 * (max_mtu - wireguard_overhead - min_mtu + 1).toNat by omega)
  have h3 := clog_two_double ((max_mtu - wireguard_overhead - min_mtu + 1).toNat) hn1
  rw [find_best_mtu_probes]
  omega

/-- Witness for C5: the 576-1500/80 range with the threshold-1380 probe; the
range has `845` sizes, so at most `clog2(845) + 1 = 11` probes are made. -/
theorem find_best_mtu_probe_count_witness :
    (576 : Int) ≤ 1500 - 80 ∧
      (find_best_mtu_probes (fun s => decide (s ≤ 1380)) 576 1500 80).length ≤
        Nat.clog 2 ((1500 - 80 - 576 + 1 : Int)).toNat + 1 :=
  ⟨by norm_num,
    find_best_mtu_probe_count (fun s => decide (s ≤ 1380)) 576 1500 80 (by norm_num)⟩

/-- C6 counterexample: at the degenerate input `min_mtu = 1500`,
`max_mtu = 1500`, `wireguard_overhead = 80` (so `min_mtu > adjusted_max`),
`find_best_mtu` does not produce any "invalid MTU bounds" error: it silently
returns the numeric answer `1580 = min_mtu + wireguard_overhead` (and makes no
probe call), refuting the claim that a defined error is produced. -/
theorem find_best_mtu_degenerate_counterexample :
    find_best_mtu (fun _ => false) 1500 1500 80 = 1580 ∧
      find_best_mtu_probes (fun _ => false) 1500 1500 80 = [] := by
  constructor
  · rw [find_best_mtu, find_best_mtu_loop_of_not_le _ _ _ _ (by norm_num)]
    norm_num
  · rw [find_best_mtu_probes, find_best_mtu_trace,
      if_neg (by norm_num : ¬ (1500 : Int) ≤ 1500 - 80)]

/-- C6 (amended): when the range is degenerate
(`min_mtu > max_mtu - wireguard_overhead`), `find_best_mtu` does not loop
forever and produces no error: it silently returns the numeric value
`min_mtu + wireguard_overhead` after zero probe calls. -/
theorem find_best_mtu_degenerate_silent (probe : Int → Bool)
    (min_mtu max_mtu wireguard_overhead : Int)
    (h : max_mtu - wireguard_overhead < min_mtu) :
    find_best_mtu probe min_mtu max_mtu wireguard_overhead =
        min_mtu + wireguard_overhead ∧
      find_best_mtu_probes probe min_mtu max_mtu wireguard_overhead = [] :=
  find_best_mtu_degenerate probe min_mtu max_mtu wireguard_overhead h

/-- Witness for the amended C6 at `min_mtu = 1500`, `max_mtu = 1500`,
`wireguard_overhead = 80`. -/
theorem find_best_mtu_degenerate_silent_witness :
    (1500 : Int) - 80 < 1500 ∧
      (find_best_mtu (fun _ => true) 1500 1500 80 = 1500 + 80 ∧
        find_best_mtu_probes (fun _ => true) 1500 1500 80 = []) :=
  ⟨by norm_num, find_best_mtu_degenerate_silent (fun _ => true) 1500 1500 80 (by norm_num)⟩

/-- C7 counterexample: on the unsupported platform (Windows) `get_current_mtu`
returns the integer sentinel `-1` — an integer value, not an optional `none` —
even when the MTU file content is readable and parses (the parse oracle maps
it to `1500`), refuting the claim that the operation returns an optional
integer that is `none` in that case. -/
theorem get_current_mtu_windows_counterexample :
    get_current_mtu (fun _ => some 1500) "Windows" (some "1500\n") = -1 := by
  rfl

/-- Helper: on a non-Windows platform with a readable file, `get_current_mtu`
is the parse of the content, with `-1` for a failed parse. -/
theorem get_current_mtu_some (parse : String → Option Int) (system_name : String)
    (s : String) (hw : ¬ system_name = "Windows") :
    get_current_mtu parse system_name (some s) =
      match parse s with
      | some n => n
      | none => -1 := by
  rw [get_current_mtu.eq_def, if_neg hw]

/-- C7 (amended): for every parse oracle (in particular for Python's real
`int(s.strip())`), `get_current_mtu` returns a plain integer with `-1` as the
sentinel: `-1` whenever the platform is Windows, or the MTU file is unreadable,
or its content does not parse as an integer; and the parsed integer of the
file content otherwise. -/
theorem get_current_mtu_sentinel (parse : String → Option Int) (system_name : String)
    (mtu_file_content : Option String) :
    (system_name = "Windows" →
        get_current_mtu parse system_name mtu_file_content = -1) ∧
      (mtu_file_content = none →
        get_current_mtu parse system_name mtu_file_content = -1) ∧
      (∀ s : String, mtu_file_content = some s → parse s = none →
        get_current_mtu parse system_name mtu_file_content = -1) ∧
      (∀ (s : String) (n : Int), ¬ system_name = "Windows" → mtu_file_content = some s →
        parse s = some n → get_current_mtu parse system_name mtu_file_content = n) := by
  refine ⟨?_, ?_, ?_, ?_⟩
  · intro hw
    rw [get_current_mtu.eq_def, if_pos hw]
  · intro hc
    rw [hc, get_current_mtu.eq_def]
    split_ifs <;> rfl
  · intro s hc hp
    rw [hc]
    by_cases hw : system_name = "Windows"
    · rw [get_current_mtu.eq_def, if_pos hw]
    · rw [get_current_mtu_some parse system_name s hw, hp]
  · intro s n hw hc hp
    rw [hc, get_current_mtu_some parse system_name s hw, hp]

/-- Witness for the amended C7: on Linux with a readable file containing
`"1500\n"` and a parse oracle mapping exactly that content to `1500`, the
parsed MTU `1500` is returned. -/
theorem get_current_mtu_sentinel_witness :
    get_current_mtu (fun s => if s = "1500\n" then some 1500 else none) "Linux"
      (some "1500\n") = 1500 :=
  (get_current_mtu_sentinel (fun s => if s = "1500\n" then some 1500 else none) "Linux"
      (some "1500\n")).2.2.2 "1500\n" 1500 (by decide) rfl (by decide)

/-- C8: across the run of `find_best_mtu`, the successive values of the
`best_mtu` variable form a monotonically non-decreasing sequence, and the
returned value is the final `best_mtu` plus the overhead (equivalently, the
final `best_mtu` is the returned value minus the overhead). -/
theorem find_best_mtu_best_monotone (probe : Int → Bool)
    (min_mtu max_mtu wireguard_overhead : Int) :
    List.Chain' (· ≤ ·)
        (best_mtu_values probe min_mtu (max_mtu - wireguard_overhead) min_mtu) ∧
      (best_mtu_values probe min_mtu (max_mtu - wireguard_overhead) min_mtu).getLast? =
        some (find_best_mtu probe min_mtu max_mtu wireguard_overhead -
          wireguard_overhead) := by
  constructor
  · exact best_mtu_values_chain_aux probe
      ((max_mtu - wireguard_overhead + 1 - min_mtu).toNat) min_mtu
      (max_mtu - wireguard_overhead) min_mtu le_rfl le_rfl
  · rw [best_mtu_values_getLast_aux probe
      ((max_mtu - wireguard_overhead + 1 - min_mtu).toNat) min_mtu
      (max_mtu - wireguard_overhead) min_mtu le_rfl, find_best_mtu]
    congr 1
    ring

/-- C9: when `min_mtu > max_mtu - wireguard_overhead` the loop body is never
entered (`low > high` initially), so `find_best_mtu` makes zero probe calls
and returns `min_mtu + wireguard_overhead`. -/
theorem find_best_mtu_degenerate_zero_probes (probe : Int → Bool)
    (min_mtu max_mtu wireguard_overhead : Int)
    (h : max_mtu - wireguard_overhead < min_mtu) :
    (find_best_mtu_probes probe min_mtu max_mtu wireguard_overhead).length = 0 ∧
      find_best_mtu probe min_mtu max_mtu wireguard_overhead =
        min_mtu + wireguard_overhead := by
  obtain ⟨h1, h2⟩ := find_best_mtu_degenerate probe min_mtu max_mtu wireguard_overhead h
  rw [h1, h2]
  simp

/-- Witness for C9 at `min_mtu = 1000`, `max_mtu = 900`,
`wireguard_overhead = 200`. -/
theorem find_best_mtu_degenerate_zero_probes_witness :
    (900 : Int) - 200 < 1000 ∧
      ((find_best_mtu_probes (fun s => decide (s ≤ 800)) 1000 900 200).length = 0 ∧
        find_best_mtu (fun s => decide (s ≤ 800)) 1000 900 200 = 1000 + 200) :=
  ⟨by norm_num,
    find_best_mtu_degenerate_zero_probes (fun s => decide (s ≤ 800)) 1000 900 200
      (by norm_num)⟩

/-- C10: for every probe and every non-degenerate range, the returned value
minus the overhead is either `min_mtu` or a size whose probe during the search
returned success; since every size is probed at most... the returned base value
is never one whose only recorded probe failed. -/
theorem find_best_mtu_result_probed (probe : Int → Bool)
    (min_mtu max_mtu wireguard_overhead : Int)
    (h : min_mtu ≤ max_mtu - wireguard_overhead) :
    find_best_mtu probe min_mtu max_mtu wireguard_overhead - wireguard_overhead =
        min_mtu ∨
      (find_best_mtu probe min_mtu max_mtu wireguard_overhead - wireguard_overhead,
          true) ∈ find_best_mtu_probes probe min_mtu max_mtu wireguard_overhead := by
  have hfst := find_best_mtu_trace_fst_aux probe
    ((max_mtu - wireguard_overhead + 1 - min_mtu).toNat) min_mtu
    (max_mtu - wireguard_overhead) min_mtu le_rfl
  have hmem := find_best_mtu_trace_mem_aux probe
    ((max_mtu - wireguard_overhead + 1 - min_mtu).toNat) min_mtu
    (max_mtu - wireguard_overhead) min_mtu le_rfl
  have hres : find_best_mtu probe min_mtu max_mtu wireguard_overhead -
      wireguard_overhead =
      (find_best_mtu_trace probe min_mtu (max_mtu - wireguard_overhead) min_mtu).1 := by
    rw [find_best_mtu, hfst]
    ring
  rw [find_best_mtu_probes, hres]
  exact hmem

/-- Witness for C10 at the 576-1500/80 range with the threshold-1380 probe. -/
theorem find_best_mtu_result_probed_witness :
    (576 : Int) ≤ 1500 - 80 ∧
      (find_best_mtu (fun s => decide (s ≤ 1380)) 576 1500 80 - 80 = 576 ∨
        (find_best_mtu (fun s => decide (s ≤ 1380)) 576 1500 80 - 80, true) ∈
          find_best_mtu_probes (fun s => decide (s ≤ 1380)) 576 1500 80) :=
  ⟨by norm_num,
    find_best_mtu_result_probed (fun s => decide (s ≤ 1380)) 576 1500 80 (by norm_num)⟩

end Mtu
